import Mathlib

/-!
Verification of the spatial-geometry kernel of `project_sonar`.

The development shallowly embeds the Rust sources:
* `src/physics/polar_vector.rs` — cartesian `Vector` and the degree-lineage
  `PolarVec` with its canonicalization `get_uni_coords`;
* `src/physics/vectors.rs` — the radian-lineage `PolarVec` whose `PartialEq`
  uses the epsilon comparison `equal_with_delta`, and `Vector::to_polar_vector`;
* `src/physics/coordinate_system.rs` — `WorldCoordSystem` /
  `GeneralCoordSystem` and the recursive world-frame transform;
* `src/Constants.rs` — `WORLD_ORIGIN`, `F64_DELTA`.

Finite `f64` arithmetic on the values the claims touch is embedded as exact
rational (`ℚ`) arithmetic; the genuinely transcendental parts of
`to_polar_vector` (`sqrt`, `atan2`, `acos`) are embedded over `ℝ`, with an
`Option ℝ` codomain tracking the NaN (or infinite) intermediate that the
division by a zero radius produces.
-/

/-- `src/Constants.rs`: `F64_DELTA = 0.000001`, the maximal difference between
two doubles until which they are still considered equal. -/
def F64_DELTA : ℚ := 1 / 1000000

/-- `src/Constants.rs`: `WORLD_ORIGIN = (0.0, 0.0, 0.0)`. -/
def WORLD_ORIGIN : ℚ × ℚ × ℚ := (0, 0, 0)

/-- Truncation of a rational toward zero, the rounding used by Rust's `%`
operator on `f64`. -/
def truncQ (q : ℚ) : ℤ := if 0 ≤ q then ⌊q⌋ else ⌈q⌉

/-- Rust `f64::rem_euclid`: the Euclidean remainder, never negative for a
positive modulus. -/
def remEuclid (a m : ℚ) : ℚ := a - m * ⌊a / m⌋

/-- Rust's truncated remainder `a % m` on `f64`, embedded for exact rationals. -/
def rustRem (a m : ℚ) : ℚ := a - m * truncQ (a / m)

/-- `src/physics/polar_vector.rs`: cartesian `Vector { x, y, z }` over `f64`,
embedded with exact rational components. -/
structure Vector where
  x : ℚ
  y : ℚ
  z : ℚ
deriving DecidableEq, Repr

/-- `Vector::new(x, y, z)`. -/
def Vector.new (x y z : ℚ) : Vector := ⟨x, y, z⟩

/-- `Vector::get_world_origin()`: builds the vector from `WORLD_ORIGIN`. -/
def Vector.get_world_origin : Vector :=
  ⟨WORLD_ORIGIN.1, WORLD_ORIGIN.2.1, WORLD_ORIGIN.2.2⟩

/-- `Vector::add`: component-wise sum. -/
def Vector.add (a b : Vector) : Vector := ⟨a.x + b.x, a.y + b.y, a.z + b.z⟩

/-- `Vector::subtract`: component-wise difference. -/
def Vector.subtract (a b : Vector) : Vector := ⟨a.x - b.x, a.y - b.y, a.z - b.z⟩

/-- `src/physics/polar_vector.rs`: degree-lineage
`PolarVec { r, phi, theta }` (radius in m, azimuth and polar angle in
degrees), rational components. -/
structure PolarVec where
  r : ℚ
  phi : ℚ
  theta : ℚ
deriving DecidableEq, Repr

/-- `PolarVec::get_uni_coords(r, phi, theta)` from `polar_vector.rs`:
1. wrap `phi` into `[0,360)` and `theta` into `[0,180)` by `rem_euclid` when
   out of range;
2. if `r == 0` force `phi = 0, theta = 0`;
3. else if `theta == 0 || theta == 180` force `phi = 0`;
4. if `r < 0` then `r = |r|`, `phi = (phi + 180) % 360`, `theta = 180 - theta`.
The source mutates `phi`/`theta` in place; the successive values are named
`phi1/theta1` (after step 1) and `phi2/theta2` (after steps 2–3) here. -/
def PolarVec.get_uni_coords (r phi theta : ℚ) : ℚ × ℚ × ℚ :=
  let phi1 := if phi < 0 ∨ 360 ≤ phi then remEuclid phi 360 else phi
  let theta1 := if theta < 0 ∨ 180 ≤ theta then remEuclid theta 180 else theta
  let phi2 := if r = 0 then 0 else if theta1 = 0 ∨ theta1 = 180 then 0 else phi1
  let theta2 := if r = 0 then 0 else theta1
  if r < 0 then (|r|, rustRem (phi2 + 180) 360, 180 - theta2)
  else (r, phi2, theta2)

/-- `PolarVec::new(r, phi, theta)`: canonicalize through `get_uni_coords` and
store the resulting triple. -/
def PolarVec.new (r phi theta : ℚ) : PolarVec :=
  let c := PolarVec.get_uni_coords r phi theta
  ⟨c.1, c.2.1, c.2.2⟩

/-- `Ord for PolarVec` in `polar_vector.rs` (`cmp`): equality first (the
derived exact component-wise `PartialEq`), then `phi`, then `theta`, then the
final `r` branch whose `else` returns `Less`. -/
def PolarVec.cmp (a b : PolarVec) : Ordering :=
  if a = b then .eq
  else if ¬ a.phi = b.phi then (if b.phi < a.phi then .gt else .lt)
  else if ¬ a.theta = b.theta then (if b.theta < a.theta then .gt else .lt)
  else if b.r < a.r then .gt else .lt

/-- `PartialOrd for PolarVec` in `polar_vector.rs`: `partial_cmp` is
`Some(self.cmp(other))`. -/
def PolarVec.partial_cmp (a b : PolarVec) : Option Ordering := some (a.cmp b)

/-- Canonical form for the degree lineage, as the specification states it:
`r ≥ 0`, `phi ∈ [0,360)`, `theta ∈ [0,180)`, `phi` forced to `0` at a pole and
`phi = theta = 0` at radius `0`. -/
def canonicalDeg (v : PolarVec) : Prop :=
  0 ≤ v.r ∧ 0 ≤ v.phi ∧ v.phi < 360 ∧ 0 ≤ v.theta ∧ v.theta < 180 ∧
    (v.theta = 0 → v.phi = 0) ∧ (v.r = 0 → v.phi = 0 ∧ v.theta = 0)

instance (v : PolarVec) : Decidable (canonicalDeg v) := by
  unfold canonicalDeg; infer_instance

/-- `src/physics/vectors.rs`: the radian-lineage `PolarVec { r, phi, theta }`
(azimuth in `[0,2π)`, polar angle in `[0,π)` by the comments), embedded with
rational components (the claims below only evaluate it on rationals). -/
structure PolarVecRad where
  r : ℚ
  phi : ℚ
  theta : ℚ
deriving DecidableEq, Repr

/-- Modelled from the spec: `equal_with_delta` lives in
`crate::utils::helper_functions`, which is not under `src/`; per the spec's
"one uses an epsilon-tolerant comparison" and the doc of `F64_DELTA` in
`src/Constants.rs` ("the maximal difference between two double values until
which they are still considered equal"), two doubles are equal with delta when
their difference is at most `F64_DELTA`. -/
def equal_with_delta (a b : ℚ) : Bool := |a - b| ≤ F64_DELTA

/-- `PartialEq for PolarVec` in `vectors.rs`: exact equality on `r`, epsilon
equality on both angles. -/
def PolarVecRad.eq (a b : PolarVecRad) : Bool :=
  decide (a.r = b.r) && equal_with_delta a.phi b.phi &&
    equal_with_delta a.theta b.theta

/-- `Ord for PolarVec` in `vectors.rs` (`cmp`): the epsilon `eq` first, then
exact comparisons on `phi`, `theta`, `r`. -/
def PolarVecRad.cmp (a b : PolarVecRad) : Ordering :=
  if a.eq b then .eq
  else if ¬ a.phi = b.phi then (if b.phi < a.phi then .gt else .lt)
  else if ¬ a.theta = b.theta then (if b.theta < a.theta then .gt else .lt)
  else if b.r < a.r then .gt else .lt

/-- `PartialOrd for PolarVec` in `vectors.rs`: `partial_cmp` is
`Some(self.cmp(other))`. -/
def PolarVecRad.partial_cmp (a b : PolarVecRad) : Option Ordering :=
  some (a.cmp b)

/-- Canonical form for the radian lineage, as the specification states it:
the degree bounds scaled, `phi ∈ [0,2π)`, `theta ∈ [0,π)`. -/
def canonicalRad (v : PolarVecRad) : Prop :=
  0 ≤ v.r ∧ 0 ≤ v.phi ∧ (v.phi : ℝ) < 2 * Real.pi ∧ 0 ≤ v.theta ∧
    (v.theta : ℝ) < Real.pi ∧ (v.theta = 0 → v.phi = 0) ∧
    (v.r = 0 → v.phi = 0 ∧ v.theta = 0)

/-- `src/physics/coordinate_system.rs`: the two `CoordinateSystem`
implementors, merged into one inductive. `world id origin` embeds
`WorldCoordSystem { id, origin }`; `general id parent origin` embeds
`GeneralCoordSystem { id, parent_coord_system, origin }` (the parent is any
already-constructed frame, so the tree is finite and rooted by
construction). -/
inductive Frame where
  | world (id : String) (origin : Vector)
  | general (id : String) (parent : Frame) (origin : Vector)
deriving DecidableEq, Repr

/-- `get_id` of both implementors. -/
def Frame.get_id : Frame → String
  | .world i _ => i
  | .general i _ _ => i

/-- `get_origin` of both implementors. -/
def Frame.get_origin : Frame → Vector
  | .world _ o => o
  | .general _ _ o => o

/-- `get_parent_coord_system`: `None` for `WorldCoordSystem`,
`Some(parent)` for `GeneralCoordSystem`. -/
def Frame.get_parent_coord_system : Frame → Option Frame
  | .world _ _ => none
  | .general _ p _ => some p

/-- `GeneralCoordSystem::transform_vector_into_parent_coords`: adds the
frame's origin to the vector component-wise (identity on a world frame, whose
method does not exist in the source and is never called). -/
def Frame.transform_vector_into_parent_coords (f : Frame) (v : Vector) : Vector :=
  ⟨f.get_origin.x + v.x, f.get_origin.y + v.y, f.get_origin.z + v.z⟩

/-- `transform_vector_into_world_coords`. `WorldCoordSystem` returns the
vector unchanged. `GeneralCoordSystem` computes
`temp = transform_vector_into_parent_coords(v)` and then matches on
`self.parent_coord_system.get_parent_coord_system()`: on `None` it returns
`temp`, on `Some(x)` it calls `x.transform_vector_into_world_coords(temp)` —
`x` being the parent's parent. The `Option` match is inlined here as a match
on the parent's constructor (`world` gives `None`, `general _ x _` gives
`Some x`), which also makes the recursion structural. -/
def Frame.transform_vector_into_world_coords : Frame → Vector → Vector
  | .world _ _, v => v
  | .general _ parent origin, v =>
    let temp : Vector := ⟨origin.x + v.x, origin.y + v.y, origin.z + v.z⟩
    match parent with
    | .world _ _ => temp
    | .general _ x _ => x.transform_vector_into_world_coords temp

/-- `WorldCoordSystem::new()`: id `"wcs"`, origin `Vector::get_world_origin()`. -/
def WorldCoordSystem.new : Frame := .world "wcs" Vector.get_world_origin

/-- `GeneralCoordSystem::new(id, parent_coord_system, origin)`. -/
def GeneralCoordSystem.new (id : String) (parent : Frame) (origin : Vector) :
    Frame := .general id parent origin

/-- Replaces the origin stored at the root `world` node of a frame tree,
leaving every `general` frame untouched (used to state that resolution never
reads the root's origin). -/
def Frame.setRootOrigin : Frame → Vector → Frame
  | .world i _, w => .world i w
  | .general i p o, w => .general i (p.setRootOrigin w) o

/-- The two-level/three-level frame tree of the spec's test property:
root `W`. -/
def frameW : Frame := WorldCoordSystem.new

/-- Child `A` with origin `(10,0,0)` relative to `W`. -/
def frameA : Frame := GeneralCoordSystem.new "A" frameW ⟨10, 0, 0⟩

/-- Grandchild `B` with origin `(0,5,0)` relative to `A`. -/
def frameB : Frame := GeneralCoordSystem.new "B" frameA ⟨0, 5, 0⟩

/-- An `f64` intermediate that is either an ordinary finite real or a marker
(`none`) for the NaN/infinite values a division by `0` produces. In
`to_polar_vector` such a value only ever feeds `acos`, which maps NaN and
every value outside `[-1,1]` (in particular `±∞`) to NaN, so the marker is
not lost. -/
noncomputable def fdiv (a b : ℝ) : Option ℝ :=
  if b = 0 then none else some (a / b)

/-- `f64::acos` on a possibly-NaN argument: NaN stays NaN, arguments outside
`[-1,1]` give NaN, otherwise the real arccosine. -/
noncomputable def facos (x : Option ℝ) : Option ℝ :=
  match x with
  | none => none
  | some a => if a < -1 ∨ 1 < a then none else some (Real.arccos a)

/-- `f64::atan2(y, x)`: the argument of the point `(x, y)`, in `(-π, π]`,
with `atan2(0, 0) = 0` — exactly `Complex.arg`. -/
noncomputable def atan2 (y x : ℝ) : ℝ := Complex.arg ⟨x, y⟩

/-- The result of `Vector::to_polar_vector`: radius and azimuth are always
finite reals, the polar angle may be NaN (`none`). -/
structure PolarVecF where
  r : ℝ
  phi : ℝ
  theta : Option ℝ

/-- `Vector::to_polar_vector` from `vectors.rs`/`polar_vector.rs` (identical
in both): `r = sqrt(x² + y² + z²)`, `phi = atan2(y, x)`,
`theta = acos(z / r)` — with no guard on `r = 0`. -/
noncomputable def to_polar_vector (x y z : ℝ) : PolarVecF :=
  let r := Real.sqrt (x ^ 2 + y ^ 2 + z ^ 2)
  ⟨r, atan2 y x, facos (fdiv z r)⟩

/-! Helper lemmas about the Euclidean remainder on `ℚ`. -/

theorem remEuclid_nonneg (a : ℚ) {m : ℚ} (hm : 0 < m) : 0 ≤ remEuclid a m := by
  have h := Int.floor_le (a / m)
  have : m * ⌊a / m⌋ ≤ m * (a / m) := by
    exact mul_le_mul_of_nonneg_left h (le_of_lt hm)
  rw [mul_div_cancel₀ a (ne_of_gt hm)] at this
  simpa [remEuclid] using this

theorem remEuclid_lt (a : ℚ) {m : ℚ} (hm : 0 < m) : remEuclid a m < m := by
  have h := Int.lt_floor_add_one (a / m)
  have : m * (a / m) < m * (⌊a / m⌋ + 1) := by
    exact mul_lt_mul_of_pos_left h hm
  rw [mul_div_cancel₀ a (ne_of_gt hm)] at this
  calc remEuclid a m = a - m * ⌊a / m⌋ := rfl
    _ < m := by nlinarith [this]

/-- Strict lexicographic order on the triple `(phi, theta, r)`. -/
def polarLexLt (a b : PolarVec) : Prop :=
  a.phi < b.phi ∨ (a.phi = b.phi ∧
    (a.theta < b.theta ∨ (a.theta = b.theta ∧ a.r < b.r)))

theorem PolarVec.cmp_eq_eq_iff (a b : PolarVec) : a.cmp b = .eq ↔ a = b := by
  unfold PolarVec.cmp
  split_ifs <;> simp_all

theorem PolarVec.cmp_eq_lt_iff (a b : PolarVec) :
    a.cmp b = .lt ↔ polarLexLt a b := by
  obtain ⟨r1, p1, t1⟩ := a
  obtain ⟨r2, p2, t2⟩ := b
  unfold PolarVec.cmp polarLexLt
  simp only [PolarVec.mk.injEq]
  split_ifs with h1 h2 h3 h4 h5 h6 <;> simp_all <;>
    first
      | exact le_of_lt (by assumption)
      | exact lt_of_le_of_ne (by assumption) (by assumption)

theorem PolarVec.cmp_eq_gt_iff (a b : PolarVec) :
    a.cmp b = .gt ↔ polarLexLt b a := by
  obtain ⟨r1, p1, t1⟩ := a
  obtain ⟨r2, p2, t2⟩ := b
  unfold PolarVec.cmp polarLexLt
  simp only [PolarVec.mk.injEq]
  split_ifs with h1 h2 h3 h4 h5 h6 <;> simp_all <;>
    first
      | exact le_of_lt (by assumption)
      | exact lt_of_le_of_ne (by assumption) (by assumption)
      | (intro h; simp_all)

theorem polarLexLt_trans {a b c : PolarVec} (h1 : polarLexLt a b)
    (h2 : polarLexLt b c) : polarLexLt a c := by
  unfold polarLexLt at *
  rcases h1 with h1 | ⟨e1, h1⟩ <;> rcases h2 with h2 | ⟨e2, h2⟩
  · exact Or.inl (lt_trans h1 h2)
  · exact Or.inl (e2 ▸ h1)
  · exact Or.inl (e1 ▸ h2)
  · refine Or.inr ⟨e1.trans e2, ?_⟩
    rcases h1 with h1 | ⟨f1, h1⟩ <;> rcases h2 with h2 | ⟨f2, h2⟩
    · exact Or.inl (lt_trans h1 h2)
    · exact Or.inl (f2 ▸ h1)
    · exact Or.inl (f1 ▸ h2)
    · exact Or.inr ⟨f1.trans f2, lt_trans h1 h2⟩

theorem transform_setRootOrigin :
    ∀ (f : Frame) (w v : Vector),
      (f.setRootOrigin w).transform_vector_into_world_coords v =
        f.transform_vector_into_world_coords v
  | .world _ _, _, _ => rfl
  | .general _ (.world _ _) _, _, _ => rfl
  | .general _ (.general _ q _) _, w, _ => transform_setRootOrigin q w _

/-- C9: `transform_vector_into_world_coords` on the `WorldCoordSystem` root
returns every cartesian vector unchanged: world coordinates are the fixed
point of the transform. -/
theorem c9_world_transform_fixed_point (i : String) (o v : Vector) :
    (Frame.world i o).transform_vector_into_world_coords v = v := rfl

/-- C10: resolution never reads the origin stored in the root: replacing the
root's origin by any vector leaves `transform_vector_into_world_coords`
unchanged on every vector, for every frame tree. -/
theorem c10_root_origin_never_read (f : Frame) (w v : Vector) :
    (f.setRootOrigin w).transform_vector_into_world_coords v =
      f.transform_vector_into_world_coords v :=
  transform_setRootOrigin f w v

/-- C6 counterexample: the id of the frame built by `WorldCoordSystem::new()`
is not `"world"` (the source and its own unit test use `"wcs"`). -/
theorem c6_counterexample : WorldCoordSystem.new.get_id ≠ "world" := by
  simp [WorldCoordSystem.new, Frame.get_id]

/-- C6 (amended): `WorldCoordSystem::new()` produces the root frame with id
`"wcs"`, origin `Vector::get_world_origin() = (0,0,0)`, and no parent. -/
theorem c6_world_new_fields :
    WorldCoordSystem.new.get_id = "wcs" ∧
    WorldCoordSystem.new.get_origin = Vector.get_world_origin ∧
    Vector.get_world_origin = ⟨0, 0, 0⟩ ∧
    WorldCoordSystem.new.get_parent_coord_system = none :=
  ⟨rfl, rfl, rfl, rfl⟩

/-- C1 (code evaluated at the failing input): for frame `B` (origin `(0,5,0)`,
parent `A` of origin `(10,0,0)`, grandparent the root), the code resolves
`(0,0,2)` to `(0,5,2)`, while `A.transform_vector_into_world_coords(v + B.origin)`
gives `(10,5,2)`; the recursion equation of the claim fails because the code
recurses on the grandparent and skips `A`'s origin. -/
theorem c1_recursion_skips_parent_origin :
    frameB.transform_vector_into_world_coords ⟨0, 0, 2⟩ = ⟨0, 5, 2⟩ ∧
    frameA.transform_vector_into_world_coords
        (Vector.add ⟨0, 0, 2⟩ frameB.get_origin) = ⟨10, 5, 2⟩ ∧
    frameB.transform_vector_into_world_coords ⟨0, 0, 2⟩ ≠
      frameA.transform_vector_into_world_coords
        (Vector.add ⟨0, 0, 2⟩ frameB.get_origin) := by
  refine ⟨?_, ?_, ?_⟩ <;>
    norm_num [frameA, frameB, frameW, WorldCoordSystem.new,
      GeneralCoordSystem.new, Frame.transform_vector_into_world_coords,
      Frame.get_origin, Vector.add]

/-- C2 (code evaluated at the spec's test inputs): `(1,0,0)` in `A` resolves
to `(11,0,0)` as claimed, but `(0,0,2)` in `B` resolves to `(0,5,2)`, not the
claimed `(10,5,2)`. -/
theorem c2_frame_resolution_values :
    frameA.transform_vector_into_world_coords ⟨1, 0, 0⟩ = ⟨11, 0, 0⟩ ∧
    frameB.transform_vector_into_world_coords ⟨0, 0, 2⟩ = ⟨0, 5, 2⟩ ∧
    ((⟨0, 5, 2⟩ : Vector) ≠ ⟨10, 5, 2⟩) := by
  refine ⟨?_, ?_, ?_⟩ <;>
    norm_num [frameA, frameB, frameW, WorldCoordSystem.new,
      GeneralCoordSystem.new, Frame.transform_vector_into_world_coords,
      Vector.add]

/-- C4 (code evaluated at the failing input): `(5, 0, 0)` and
`(-5, 180, 180)` describe the same physical point (radius negated, `theta`
reflected, `phi` rotated by 180°), yet `PolarVec::new` maps them to the
distinct values `(5,0,0)` and `(5,180,180)` — the negative-radius flip runs
after pole collapse and re-wrapping, contradicting `get_uni_coords`' own
comment that physically equal vectors get equal values. -/
theorem c4_equivalent_triples_unequal :
    PolarVec.new 5 0 0 = ⟨5, 0, 0⟩ ∧
    PolarVec.new (-5) 180 180 = ⟨5, 180, 180⟩ ∧
    PolarVec.new 5 0 0 ≠ PolarVec.new (-5) 180 180 := by
  refine ⟨?_, ?_, ?_⟩ <;>
    norm_num [PolarVec.new, PolarVec.get_uni_coords, remEuclid, rustRem, truncQ]

/-- C3 counterexample: `PolarVec::new(-5, 0, 0)` yields `(5, 180, 180)`,
whose `theta = 180` is outside `[0,180)` and whose `phi` is not collapsed at
the pole — not in canonical form. -/
theorem c3_counterexample : ¬ canonicalDeg (PolarVec.new (-5) 0 0) := by
  norm_num [canonicalDeg, PolarVec.new, PolarVec.get_uni_coords, remEuclid,
    rustRem, truncQ]

/-- C3 (amended): every `PolarVec` built by `PolarVec::new(r, phi, theta)`
from a non-negative radius is in canonical form: `r ≥ 0`, `phi ∈ [0,360)`,
`theta ∈ [0,180)`, `phi = 0` at the pole, `phi = theta = 0` at radius `0`. -/
theorem c3_new_canonical_of_nonneg (r phi theta : ℚ) (hr : 0 ≤ r) :
    canonicalDeg (PolarVec.new r phi theta) := by
  have h360 : (0:ℚ) < 360 := by norm_num
  have h180 : (0:ℚ) < 180 := by norm_num
  unfold canonicalDeg PolarVec.new PolarVec.get_uni_coords
  rw [if_neg (not_lt.mpr hr)]
  set phi1 := (if phi < 0 ∨ 360 ≤ phi then remEuclid phi 360 else phi) with hp1
  set theta1 := (if theta < 0 ∨ 180 ≤ theta then remEuclid theta 180 else theta)
    with ht1
  have hphi1 : 0 ≤ phi1 ∧ phi1 < 360 := by
    rw [hp1]; split_ifs with h
    · exact ⟨remEuclid_nonneg _ h360, remEuclid_lt _ h360⟩
    · push_neg at h; exact ⟨h.1, h.2⟩
  have htheta1 : 0 ≤ theta1 ∧ theta1 < 180 := by
    rw [ht1]; split_ifs with h
    · exact ⟨remEuclid_nonneg _ h180, remEuclid_lt _ h180⟩
    · push_neg at h; exact ⟨h.1, h.2⟩
  by_cases hr0 : r = 0
  · simp [hr0]
  · rw [if_neg hr0, if_neg hr0]
    by_cases hpole : theta1 = 0 ∨ theta1 = 180
    · rw [if_pos hpole]
      refine ⟨hr, le_refl 0, h360, htheta1.1, htheta1.2, fun _ => rfl,
        fun h => absurd h hr0⟩
    · rw [if_neg hpole]
      refine ⟨hr, hphi1.1, hphi1.2, htheta1.1, htheta1.2, ?_,
        fun h => absurd h hr0⟩
      intro h
      exact absurd (Or.inl h) hpole

/-- C3 witness: the amended theorem applied at `(5, 90, 45)`. -/
theorem c3_witness :
    (0:ℚ) ≤ 5 ∧ canonicalDeg (PolarVec.new 5 90 45) :=
  ⟨by norm_num, c3_new_canonical_of_nonneg 5 90 45 (by norm_num)⟩

/-- C7 counterexample: for the negative radius `-5`, both
`PolarVec::new(-5, 90, 0)` and `PolarVec::new(-5, 90, 180)` have
`phi = 180`, not `0`: the negative-radius flip rotates the already-collapsed
azimuth away from `0`. -/
theorem c7_counterexample :
    (PolarVec.new (-5) 90 0).phi ≠ 0 ∧ (PolarVec.new (-5) 90 180).phi ≠ 0 := by
  constructor <;>
    norm_num [PolarVec.new, PolarVec.get_uni_coords, remEuclid, rustRem, truncQ]

/-- C7 (amended): for every non-negative radius `r` and every azimuth `phi`,
`PolarVec::new(r, phi, 0)` and `PolarVec::new(r, phi, 180)` both collapse
`phi` to `0`. -/
theorem c7_pole_collapse_nonneg (r phi : ℚ) (hr : 0 ≤ r) :
    (PolarVec.new r phi 0).phi = 0 ∧ (PolarVec.new r phi 180).phi = 0 := by
  have hrem : remEuclid 180 180 = 0 := by norm_num [remEuclid]
  constructor <;>
  · simp only [PolarVec.new, PolarVec.get_uni_coords]
    rw [if_neg (not_lt.mpr hr)]
    by_cases hr0 : r = 0
    · simp [hr0]
    · norm_num [hr0, hrem]

/-- C7 witness: the amended theorem applied at `(5, 90)`. -/
theorem c7_witness :
    (0:ℚ) ≤ 5 ∧ (PolarVec.new 5 90 0).phi = 0 ∧ (PolarVec.new 5 90 180).phi = 0 :=
  ⟨by norm_num, c7_pole_collapse_nonneg 5 90 (by norm_num)⟩

/-- C5 (code evaluated at the failing input): `to_polar_vector` on the exact
zero vector computes `r = 0` and `phi = atan2(0,0) = 0`, but its polar angle
is `acos(0/0) = acos(NaN) = NaN` (`none`): the division by the zero radius is
not guarded, so the canonical `(0,0,0)` is not returned. -/
theorem c5_to_polar_zero_theta_nan :
    (to_polar_vector 0 0 0).r = 0 ∧ (to_polar_vector 0 0 0).phi = 0 ∧
    (to_polar_vector 0 0 0).theta = none := by
  have hzero : ((0:ℝ) ^ 2 + 0 ^ 2 + 0 ^ 2) = 0 := by norm_num
  have harg : (⟨0, 0⟩ : ℂ) = 0 := by
    simp [Complex.ext_iff]
  refine ⟨?_, ?_, ?_⟩
  · simp [to_polar_vector, hzero]
  · simp [to_polar_vector, atan2, harg]
  · simp [to_polar_vector, hzero, fdiv, facos]

/-- C8 (amended): in the exact-equality lineage (`polar_vector.rs`), `cmp` is
exactly the lexicographic comparison on `(phi, theta, r)` with `phi` primary
(`.eq` exactly on equal triples, `.lt` exactly on lexicographically smaller
ones), it is antisymmetric and transitive, and in both lineages
`partial_cmp` always returns `Some` of `cmp`'s result. -/
theorem c8_cmp_lex_total_order :
    (∀ a b : PolarVec, a.partial_cmp b = some (a.cmp b)) ∧
    (∀ a b : PolarVec, a.cmp b = .eq ↔ a = b) ∧
    (∀ a b : PolarVec, a.cmp b = .lt ↔ polarLexLt a b) ∧
    (∀ a b : PolarVec, a.cmp b = .lt ↔ b.cmp a = .gt) ∧
    (∀ a b c : PolarVec, a.cmp b = .lt → b.cmp c = .lt → a.cmp c = .lt) ∧
    (∀ a b : PolarVecRad, a.partial_cmp b = some (a.cmp b)) :=
  ⟨fun _ _ => rfl,
   PolarVec.cmp_eq_eq_iff,
   PolarVec.cmp_eq_lt_iff,
   fun a b => by rw [PolarVec.cmp_eq_lt_iff, PolarVec.cmp_eq_gt_iff],
   fun a b c h1 h2 => (PolarVec.cmp_eq_lt_iff a c).mpr
     (polarLexLt_trans ((PolarVec.cmp_eq_lt_iff a b).mp h1)
       ((PolarVec.cmp_eq_lt_iff b c).mp h2)),
   fun _ _ => rfl⟩

/-- C8 witness: transitivity of the amended theorem applied at the concrete
chain `(1,1,1) < (1,2,1) < (1,3,1)` (ordered by `theta` at equal `phi`). -/
theorem c8_witness : PolarVec.cmp ⟨1, 1, 1⟩ ⟨1, 3, 1⟩ = .lt :=
  c8_cmp_lex_total_order.2.2.2.2.1 ⟨1, 1, 1⟩ ⟨1, 2, 1⟩ ⟨1, 3, 1⟩
    (by norm_num [PolarVec.cmp]) (by norm_num [PolarVec.cmp])

/-- C8 counterexample: in the epsilon lineage (`vectors.rs`), `cmp` is not
transitive on distinct canonical vectors: with `a = (1, 0, 1)`,
`b = (2, 4·10⁻⁷, 1)`, `c = (1, 8·10⁻⁷, 1)` (all canonical, pairwise distinct)
the code gives `a < b` and `b < c` but `cmp a c = Equal`, because the
epsilon-tolerant `eq` merges `a` and `c` while the exact radii separated `a`
from `b` and `b` from `c`. -/
theorem c8_counterexample :
    canonicalRad ⟨1, 0, 1⟩ ∧ canonicalRad ⟨2, 4/10000000, 1⟩ ∧
    canonicalRad ⟨1, 8/10000000, 1⟩ ∧
    (⟨1, 0, 1⟩ : PolarVecRad) ≠ ⟨2, 4/10000000, 1⟩ ∧
    (⟨2, 4/10000000, 1⟩ : PolarVecRad) ≠ ⟨1, 8/10000000, 1⟩ ∧
    (⟨1, 0, 1⟩ : PolarVecRad) ≠ ⟨1, 8/10000000, 1⟩ ∧
    PolarVecRad.cmp ⟨1, 0, 1⟩ ⟨2, 4/10000000, 1⟩ = .lt ∧
    PolarVecRad.cmp ⟨2, 4/10000000, 1⟩ ⟨1, 8/10000000, 1⟩ = .lt ∧
    PolarVecRad.cmp ⟨1, 0, 1⟩ ⟨1, 8/10000000, 1⟩ = .eq := by
  have hcan : ∀ r phi theta : ℚ, 0 ≤ r → r ≠ 0 → 0 ≤ phi →
      (phi : ℝ) < 2 * Real.pi → 0 < theta → (theta : ℝ) < Real.pi →
      canonicalRad ⟨r, phi, theta⟩ := by
    intro r phi theta h1 h2 h3 h4 h5 h6
    exact ⟨h1, h3, h4, le_of_lt h5, h6, fun h => absurd h (ne_of_gt h5),
      fun h => absurd h h2⟩
  refine ⟨hcan 1 0 1 (by norm_num) (by norm_num) (by norm_num)
      (by push_cast; linarith [Real.pi_pos]) (by norm_num)
      (by push_cast; linarith [Real.pi_gt_three]),
    hcan 2 (4/10000000) 1 (by norm_num) (by norm_num) (by norm_num)
      (by push_cast; linarith [Real.pi_gt_three]) (by norm_num)
      (by push_cast; linarith [Real.pi_gt_three]),
    hcan 1 (8/10000000) 1 (by norm_num) (by norm_num) (by norm_num)
      (by push_cast; linarith [Real.pi_gt_three]) (by norm_num)
      (by push_cast; linarith [Real.pi_gt_three]), ?_, ?_, ?_, ?_, ?_, ?_⟩ <;>
    norm_num [PolarVecRad.cmp, PolarVecRad.eq, equal_with_delta, F64_DELTA,
      abs_le]
